import Mathlib

/-!
Verification development for the FAIRGAME multiplayer game-simulation engine.

The Python sources are embedded shallowly:
* dictionaries become association lists (`List (κ × α)`) in insertion order,
  looked up with `aget` (first matching key, which agrees with Python's unique
  dict keys);
* methods become pure functions; methods that mutate an object take the object
  and return the updated object;
* code that can raise becomes `Except String α`, with error messages mirroring
  the Python exceptions;
* machine integers are `Int`/`Nat` (Python integers are unbounded, so no
  wrap-around modelling is needed).
-/

/-- Association-list lookup: the value of the first pair whose key equals `k`.
Models a Python dict lookup (`d[k]` / `d.get(k)`); dict keys are unique, so
"first match" is exact. Returns `none` when the key is absent. -/
def aget {κ α : Type} [DecidableEq κ] : List (κ × α) → κ → Option α
  | [], _ => none
  | kv :: rest, k => if kv.1 = k then some kv.2 else aget rest k

/-- Association-list update: replace the value of the first pair whose key is
`k`, keeping its position, or append `(k, v)` when the key is absent. Models
Python's `d[k] = v` on a dict (insertion order preserved, existing key keeps
its slot). -/
def aset {κ α : Type} [DecidableEq κ] : List (κ × α) → κ → α → List (κ × α)
  | [], k, v => [(k, v)]
  | kv :: rest, k, v => if kv.1 = k then (k, v) :: rest else kv :: aset rest k v

/-- Python dict access `d[k]` that raises `KeyError` when the key is missing. -/
def dictGet {α : Type} (m : List (String × α)) (k : String) : Except String α :=
  match aget m k with
  | some v => Except.ok v
  | none => Except.error ("KeyError: " ++ k)

/-! ## PayoffMatrix (src/payoff_matrix.py)

`matrix_data` holds `weights` (weight label → numeric payoff), `strategies`
(strategy key → display name, already selected for the game's language, as the
`strategies` property does), `combinations` (combination key → ordered strategy
keys) and `matrix` (combination key → ordered weight labels). -/

structure MatrixData where
  weights : List (String × Int)
  strategies : List (String × String)
  combinations : List (String × List String)
  matrix : List (String × List String)
deriving DecidableEq

/-- `PayoffMatrix.get_combination_key`: the first combination whose stored
strategy-key list equals `round_strategies`; `ValueError` when none does. -/
def get_combination_key (md : MatrixData) (round_strategies : List String) :
    Except String String :=
  match md.combinations.find? (fun kv => kv.2 == round_strategies) with
  | some kv => Except.ok kv.1
  | none => Except.error "Combination not found."

/-- The per-agent loop of `PayoffMatrix.attribute_scores`: pop the next weight
label and append its numeric value to the agent's score list; `break` (leaving
the remaining agents untouched) when the labels run out. Agents are modelled by
their score lists, the only agent state this method touches. -/
def assign_scores (weights : List (String × Int)) :
    List (List Int) → List String → Except String (List (List Int))
  | [], _ => Except.ok []
  | a :: rest, [] => Except.ok (a :: rest)
  | a :: rest, w :: ws =>
    match aget weights w with
    | none => Except.error ("KeyError: " ++ w)
    | some v =>
      match assign_scores weights rest ws with
      | Except.error e => Except.error e
      | Except.ok tail => Except.ok ((a ++ [v]) :: tail)

/-- `PayoffMatrix.attribute_scores`: look up the combination key for the round's
strategy keys, then hand the combination's weight labels to the agents in
positional order. -/
def attribute_scores (md : MatrixData) (agents : List (List Int))
    (round_strategies : List String) : Except String (List (List Int)) :=
  match get_combination_key md round_strategies with
  | Except.error e => Except.error e
  | Except.ok combo_key =>
    match aget md.matrix combo_key with
    | none => Except.error ("KeyError: " ++ combo_key)
    | some weight_keys => assign_scores md.weights agents weight_keys

/-- Key resolution loop of `get_weights_for_combination`: each display name is
sent through the reversed `{name: key}` mapping; an unknown name — or a falsy
(empty) key, mirroring `if not strategy_key` — raises `ValueError`. -/
def resolve_names (name_to_key : List (String × String)) :
    List String → Except String (List String)
  | [] => Except.ok []
  | n :: rest =>
    match aget name_to_key n with
    | none => Except.error ("Invalid strategy: " ++ n)
    | some k =>
      if k = "" then Except.error ("Invalid strategy: " ++ n)
      else
        match resolve_names name_to_key rest with
        | Except.error e => Except.error e
        | Except.ok ks => Except.ok (k :: ks)

/-- Resolve a list of weight labels to numeric values
(`tuple(self.weights[wk] for wk in ...)`). -/
def resolve_weights (weights : List (String × Int)) :
    List String → Except String (List Int)
  | [] => Except.ok []
  | w :: ws =>
    match aget weights w with
    | none => Except.error ("KeyError: " ++ w)
    | some v =>
      match resolve_weights weights ws with
      | Except.error e => Except.error e
      | Except.ok vs => Except.ok (v :: vs)

/-- The `{name: key for key, name in strategies.items()}` reverse mapping;
with duplicate display names a Python dict keeps the last binding, hence the
`reverse`. -/
def name_to_key (strategies : List (String × String)) : List (String × String) :=
  (strategies.map (fun kv => (kv.2, kv.1))).reverse

/-- `PayoffMatrix.get_weights_for_combination`: display names → strategy keys →
first matching combination → its weight labels resolved to numbers. -/
def get_weights_for_combination (md : MatrixData) (strategy_list : List String) :
    Except String (List Int) :=
  match resolve_names (name_to_key md.strategies) strategy_list with
  | Except.error e => Except.error e
  | Except.ok key_list =>
    match md.combinations.find? (fun kv => kv.2 == key_list) with
    | none => Except.error "No matching combination found."
    | some kv =>
      match aget md.matrix kv.1 with
      | none => Except.error ("KeyError: " ++ kv.1)
      | some wks => resolve_weights md.weights wks

/-- The reference Prisoner's Dilemma matrix of the spec's §8 example and of
`unit_tests/test_game.py`: weights `{w1:5, w2:0, w3:3, w4:1}`, combinations
`(Betray,Betray)→(w3,w3)`, `(Betray,Cooperate)→(w1,w2)`,
`(Cooperate,Betray)→(w2,w1)`, `(Cooperate,Cooperate)→(w4,w4)`. -/
def pdMatrix : MatrixData :=
  { weights := [("w1", 5), ("w2", 0), ("w3", 3), ("w4", 1)],
    strategies := [("strategy1", "Betray"), ("strategy2", "Cooperate")],
    combinations := [("combination1", ["strategy1", "strategy1"]),
                     ("combination2", ["strategy1", "strategy2"]),
                     ("combination3", ["strategy2", "strategy1"]),
                     ("combination4", ["strategy2", "strategy2"])],
    matrix := [("combination1", ["w3", "w3"]),
               ("combination2", ["w1", "w2"]),
               ("combination3", ["w2", "w1"]),
               ("combination4", ["w4", "w4"])] }

/-- A one-slot matrix: one combination `c1 : [s1]` paying one weight `w1 = 5`. -/
def oneSlotMatrix : MatrixData :=
  { weights := [("w1", 5)],
    strategies := [("s1", "Betray")],
    combinations := [("c1", ["s1"])],
    matrix := [("c1", ["w1"])] }

/-! ## C4: `FairGame._majority_vote` (src/fairgame.py)

`Counter(choices)` lists its keys in insertion order, i.e. in order of first
occurrence in `choices`; `most_common()` sorts the `(key, count)` pairs by
count, descending, with a stable sort (`sorted` is stable), so
`most_common()[0][0]` is the first key, in first-occurrence order, whose count
is maximal. -/

/-- First-occurrence-ordered key list of `Counter(choices)`. Fuel-based so the
recursion is structural; `fuel ≥ length` gives the intended value. -/
def counter_keys_fuel : Nat → List String → List String
  | _, [] => []
  | 0, _ :: _ => []
  | fuel + 1, c :: rest => c :: counter_keys_fuel fuel (rest.filter (fun x => x != c))

def counter_keys (l : List String) : List String := counter_keys_fuel l.length l

/-- One step of scanning `most_common()` for its head: keep the current best
key, replacing it only on a strictly greater count (so the earliest maximal
key wins, as a stable descending sort guarantees). -/
def mc_step (cnt : String → Nat) (best : Option String) (c : String) : Option String :=
  match best with
  | none => some c
  | some b => if cnt b < cnt c then some c else some b

/-- `Counter.most_common()[0][0]` (`none` on an empty counter). -/
def most_common_head (cnt : String → Nat) (keys : List String) : Option String :=
  keys.foldl (mc_step cnt) none

/-- `FairGame._majority_vote`: `None` for an empty list, otherwise the head of
`Counter(choices).most_common()`. -/
def majority_vote (choices : List String) : Option String :=
  most_common_head (fun x => choices.count x) (counter_keys choices)

/-! ## C8: `GameHistory.update_round` (src/game_history.py)

`rounds` maps the string key `f'round_{round_number}'` to a per-agent dict of
field/value records. Record values can be strings, numbers or nested dicts, so
the embedding is parametric in the value type. -/

/-- Little-endian decimal digits of `n` (empty for 0), fuel-based so the
recursion is structural; `fuel ≥ n` suffices. -/
def dec_digits_rev : Nat → Nat → List Nat
  | 0, _ => []
  | _ + 1, 0 => []
  | fuel + 1, n + 1 => ((n + 1) % 10) :: dec_digits_rev fuel ((n + 1) / 10)

def digit_char (d : Nat) : Char := Char.ofNat (48 + d)

/-- The decimal numeral of `n`, as Python's `str(n)` renders it. -/
def nat_chars (n : Nat) : List Char :=
  if n = 0 then ['0'] else ((dec_digits_rev n n).map digit_char).reverse

/-- The history key `f'round_{round_number}'`. -/
def round_key (n : Nat) : String := ⟨"round_".data ++ nat_chars n⟩

/-- Evaluate a little-endian digit list. -/
def undigits : List Nat → Nat
  | [] => 0
  | d :: ds => d + 10 * undigits ds

/-- Parse a decimal numeral (inverse of `nat_chars`). -/
def unchars (s : List Char) : Nat :=
  s.foldl (fun acc c => acc * 10 + (c.toNat - 48)) 0

/-- Merge `upd` into `old` as Python's `dict.update` does: existing keys are
overwritten in place, new keys are appended, in `upd`'s order. -/
def dict_update {α : Type} (old upd : List (String × α)) : List (String × α) :=
  upd.foldl (fun acc kv => aset acc kv.1 kv.2) old

/-- The per-round, per-agent history ledger of `GameHistory`. -/
structure GameHistory (α : Type) where
  rounds : List (String × List (String × List (String × α)))

/-- `GameHistory.update_round`: create the round dict if absent
(`if round_key not in self.rounds`), create the agent's record if absent
(`setdefault(agent_name, {})`), then merge `data` into it (`.update(data)`). -/
def update_round {α : Type} (h : GameHistory α) (round_number : Nat)
    (agent_name : String) (data : List (String × α)) : GameHistory α :=
  let rk := round_key round_number
  let base := match aget h.rounds rk with
    | some m => m
    | none => []
  let agent_rec := match aget base agent_name with
    | some r => r
    | none => []
  ⟨aset h.rounds rk (aset base agent_name (dict_update agent_rec data))⟩

/-- The record stored for `(round n, agent a)` — `{}` when absent. -/
def history_record {α : Type} (h : GameHistory α) (n : Nat) (a : String) :
    List (String × α) :=
  match aget h.rounds (round_key n) with
  | some m =>
    (match aget m a with
     | some r => r
     | none => [])
  | none => []

/-! ## C9: `Agent.get_info` (src/agent.py) -/

structure Agent9 where
  name : String
  llm_service : String
  personality : String
  opponent_personality_prob : Int
  team_id : Option String

/-- The `role_index` attribute that `Agent.get_info` reads. Neither
`Agent.__init__` nor any other code in the repository ever assigns
`role_index`, so the attribute is absent on every instance: the outer `none`
means "attribute missing" (a present attribute with value `v` would be
`some v`), and reading a missing attribute raises `AttributeError`. -/
def attr_role_index (_ : Agent9) : Option (Option Int) := none

/-- `Agent.get_info`: build the info dict, append `team_id` when set, then
test `self.role_index`, which raises `AttributeError` when the attribute is
absent. -/
def get_info (a : Agent9) : Except String (List (String × String)) :=
  let info := [("name", a.name), ("llm_service", a.llm_service),
               ("personality", a.personality),
               ("opponent_personality_probability",
                toString a.opponent_personality_prob)]
  let info2 := match a.team_id with
    | some t => info ++ [("team_id", t)]
    | none => info
  match attr_role_index a with
  | none => Except.error "AttributeError: Agent object has no attribute role_index"
  | some ri =>
    match ri with
    | some r => Except.ok (info2 ++ [("role_index", toString r)])
    | none => Except.ok info2

/-! ## C2: bounded-retry strategy extraction (src/game_round.py) -/

/-- `needle in hay` for character lists (Python's substring test). -/
def occursIn (needle hay : List Char) : Bool :=
  hay.tails.any (fun t => needle.isPrefixOf t)

/-- Python's case-insensitive containment test
`val.lower() in response.lower()`. -/
def name_in_response (val response : String) : Bool :=
  occursIn (val.data.map Char.toLower) (response.data.map Char.toLower)

/-- One extraction attempt
(`next((key for key, val in self.game.payoff_matrix.strategies.items()
if val.lower() in response.lower()), None)`): the first key, in the strategy
dict's insertion order, whose display name occurs case-insensitively in the
response. -/
def find_strategy (strategies : List (String × String)) (response : String) :
    Option String :=
  (strategies.find? (fun kv => name_in_response kv.2 response)).map Prod.fst

/-- `@retry(tries=10, delay=1)` around `_execute_agent_strategy`: each attempt
consumes the agent's next raw response text; an attempt that finds no known
display name raises `ValueError("No matching strategy found")`, which `retry`
swallows until the attempt budget is spent, after which it propagates.
`responses` is the stream of texts the agent's decision service produces; the
fixed inter-attempt delay has no observable effect on the result. -/
def execute_agent_strategy (strategies : List (String × String)) :
    Nat → List String → Except String String
  | 0, _ => Except.error "No matching strategy found"
  | _ + 1, [] => Except.error "No matching strategy found"
  | tries + 1, r :: rest =>
    match find_strategy strategies r with
    | some k => Except.ok k
    | none => execute_agent_strategy strategies tries rest

/-! ## C3 and C10: `FairGame` stop conditions and team aggregation
(src/fairgame.py) -/

/-- `FairGame._find_combination_key` over the *effective* choice lists that
`run_round` records. In team mode an entry can be Python `None` (a team none
of whose members contributed a strategy), so the element type is
`Option String`; a stored combination — a list of genuine strategy keys — is
compared after lifting with `some`, hence `None` never equals a stored key,
exactly as `None == "C"` is false in Python. Returns `none` instead of raising
when nothing matches. -/
def find_combination_key (combos : List (String × List String))
    (strategy_list : List (Option String)) : Option String :=
  (combos.find? (fun kv => kv.2.map some == strategy_list)).map Prod.fst

/-- The loop state of `FairGame.run`: the fields `run` and
`stop_condition_is_met` read and write. -/
structure GState where
  n_rounds : Nat
  current_round : Nat
  combinations : List (String × List String)
  stop_conditions : List String
  choices_made : List (List (Option String))

/-- `FairGame.stop_condition_is_met`: false when `choices_made` is empty;
otherwise look up the combination key of the last recorded effective choice
tuple and test membership in `stop_conditions`; no-match is simply false. -/
def stop_condition_is_met (st : GState) : Bool :=
  match st.choices_made.getLast? with
  | none => false
  | some last =>
    match find_combination_key st.combinations last with
    | none => false
    | some c => st.stop_conditions.contains c

/-- Whether a single choice tuple triggers the stop condition. -/
def stop_match (combos : List (String × List String)) (stops : List String)
    (c : List (Option String)) : Bool :=
  match find_combination_key combos c with
  | none => false
  | some k => stops.contains k

/-- The combined effect of one loop iteration of `FairGame.run`:
`run_round` appends the round's effective choice tuple to `choices_made`
(the tuple comes from the decision oracle `dec`, which abstracts the
LLM-driven `GameRound.run` plus the classic/team aggregation; scoring and
history writes do not feed back into the loop condition), then `run`
increments `current_round`. -/
def run_step (dec : Nat → List (Option String)) (st : GState) : GState :=
  { n_rounds := st.n_rounds,
    current_round := st.current_round + 1,
    combinations := st.combinations,
    stop_conditions := st.stop_conditions,
    choices_made := st.choices_made ++ [dec st.current_round] }

/-- `FairGame.run`'s while loop, fuelled (`run` supplies fuel covering the
whole remaining round budget): while `current_round <= n_rounds` and the stop
condition is not met, run a round and increment `current_round`. Also returns
the list of executed round numbers, in order. -/
def run_from (dec : Nat → List (Option String)) : Nat → GState → GState × List Nat
  | 0, st => (st, [])
  | fuel + 1, st =>
    if st.current_round ≤ st.n_rounds ∧ stop_condition_is_met st = false then
      ((run_from dec fuel (run_step dec st)).1,
       st.current_round :: (run_from dec fuel (run_step dec st)).2)
    else (st, [])

/-- `FairGame.run`. -/
def run (dec : Nat → List (Option String)) (st : GState) : GState × List Nat :=
  run_from dec (st.n_rounds + 1 - st.current_round) st

/-- The team structure of a team-mode `FairGame`: `teams` maps team ids to
member names; `team_order = list(teams.keys())` fixes the ordering. -/
structure TeamGame where
  teams : List (String × List String)
  team_order : List String

/-- One team's aggregated decision inside `_aggregate_team_decisions`:
`members = self.teams.get(team_id, [])`, then the majority vote over
`[round_strategies[name] for name in members if name in round_strategies]`. -/
def team_vote (g : TeamGame) (round_strategies : List (String × String))
    (tid : String) : Option String :=
  majority_vote (((aget g.teams tid).getD []).filterMap
    (fun n => aget round_strategies n))

/-- `FairGame._aggregate_team_decisions`: a per-team dict, keyed in
`team_order` order. -/
def aggregate_team_decisions (g : TeamGame)
    (round_strategies : List (String × String)) : List (String × Option String) :=
  g.team_order.map (fun tid => (tid, team_vote g round_strategies tid))

/-- `[team_choices[tid] for tid in self.team_order]` — `KeyError` when a team
id is missing from the dict. -/
def ordered_team_strategies (team_choices : List (String × Option String)) :
    List String → Except String (List (Option String))
  | [] => Except.ok []
  | tid :: rest =>
    match dictGet team_choices tid with
    | Except.error e => Except.error e
    | Except.ok s =>
      match ordered_team_strategies team_choices rest with
      | Except.error e => Except.error e
      | Except.ok ss => Except.ok (s :: ss)

/-- The member-scoring loop at the end of `_assign_team_scores`: every agent
must carry a team id, the id must be in the payoff map, and the team's payoff
is appended to the agent's scores. -/
def score_team_agents (team_payoff_map : List (String × Int)) :
    List (String × Option String × List Int) →
    Except String (List (String × Option String × List Int))
  | [] => Except.ok []
  | a :: rest =>
    match a.2.1 with
    | none => Except.error ("Agent has no team_id in a team-based game: " ++ a.1)
    | some tid =>
      match aget team_payoff_map tid with
      | none => Except.error ("Agent belongs to unknown team: " ++ tid)
      | some p =>
        match score_team_agents team_payoff_map rest with
        | Except.error e => Except.error e
        | Except.ok tail => Except.ok ((a.1, a.2.1, a.2.2 ++ [p]) :: tail)

/-- `FairGame._assign_team_scores`: order the team choices by `team_order`,
find the matching payoff combination (raising
"No payoff matrix combination matches strategies" when none does), check the
payoff count against the team count, resolve weights, and give each member
agent its team's payoff. Agents are `(name, team_id, scores)` triples. -/
def assign_team_scores (md : MatrixData) (team_order : List String)
    (agents : List (String × Option String × List Int))
    (team_choices : List (String × Option String)) :
    Except String (List (String × Option String × List Int)) :=
  match ordered_team_strategies team_choices team_order with
  | Except.error e => Except.error e
  | Except.ok ordered_strategies =>
    match find_combination_key md.combinations ordered_strategies with
    | none => Except.error "No payoff matrix combination matches strategies"
    | some comb_key =>
      match dictGet md.matrix comb_key with
      | Except.error e => Except.error e
      | Except.ok payoffs =>
        if payoffs.length ≠ team_order.length then
          Except.error "Payoff matrix returned wrong number of payoffs"
        else
          match resolve_weights md.weights payoffs with
          | Except.error e => Except.error e
          | Except.ok numeric =>
            score_team_agents (team_order.zip numeric) agents

/-! ## PromptCreator (src/prompt_creator.py)

Templates are modelled as character lists. `_find_part` is the regex
`\x7bfield\x7d:\s*\[(.*?)\]` under `re.DOTALL`: the literal text
`{field}:`, then greedy whitespace, then `[`, then a non-greedy body running
to the first `]`. `re.search` returns the leftmost such match. -/

def cs (s : String) : List Char := s.data

/-- Python's `\s` (the `str.format` inputs here are ASCII): space, tab,
newline, carriage return, vertical tab, form feed. -/
def is_py_space (c : Char) : Bool :=
  c = ' ' || c = '\t' || c = '\n' || c = '\r' || c = '\u000B' || c = '\u000C'

/-- Strip an exact leading pattern. -/
def strip_pre : List Char → List Char → Option (List Char)
  | [], s => some s
  | _ :: _, [] => none
  | p :: ps, c :: rest => if p = c then strip_pre ps rest else none

/-- The literal prefix `{tag}:` of a section pattern. -/
def section_pat (tag : List Char) : List Char :=
  '{' :: (tag ++ ('}' :: ':' :: []))

/-- Try the section pattern at the start of `s`; on success return
`(group(0), group(1))` — the full matched span and the bracketed body. -/
def match_at (tag s : List Char) : Option (List Char × List Char) :=
  match strip_pre (section_pat tag) s with
  | none => none
  | some rest1 =>
    match rest1.dropWhile is_py_space with
    | '[' :: rest3 =>
      match rest3.dropWhile (fun c => c != ']') with
      | ']' :: _ =>
        some (section_pat tag ++ rest1.takeWhile is_py_space ++
                ('[' :: (rest3.takeWhile (fun c => c != ']') ++ [']'])),
              rest3.takeWhile (fun c => c != ']'))
      | _ => none
    | _ => none

/-- `re.search`: the leftmost match of the section pattern. -/
def find_part (tag : List Char) : List Char → Option (List Char × List Char)
  | [] => none
  | c :: rest =>
    match match_at tag (c :: rest) with
    | some r => some r
    | none => find_part tag rest

/-- `str.replace`: replace every (left-to-right, non-overlapping) occurrence
of `pat` by `rep`. Fuel-based for structural recursion; `fuel = s.length`
suffices since `pat` is non-empty in every use (`group(0)` starts with a
brace). -/
def replace_all_fuel (pat rep : List Char) : Nat → List Char → List Char
  | 0, s => s
  | _ + 1, [] => []
  | fuel + 1, c :: rest =>
    if pat ≠ [] ∧ pat.isPrefixOf (c :: rest) then
      rep ++ replace_all_fuel pat rep fuel ((c :: rest).drop pat.length)
    else c :: replace_all_fuel pat rep fuel rest

def replace_all (s pat rep : List Char) : List Char :=
  replace_all_fuel pat rep s.length s

/-- `PromptCreator._remove_part`. -/
def remove_part (t : List Char) : Option (List Char × List Char) → List Char
  | none => t
  | some (g0, _) => replace_all t g0 []

/-- `PromptCreator._replace_part` with no explicit replacement: keep the
body. -/
def keep_body (t : List Char) : Option (List Char × List Char) → List Char
  | none => t
  | some (g0, body) => replace_all t g0 body

/-- The agent data `PromptCreator` reads. -/
structure PAgent where
  name : String
  personality : String
  opponent_personality_prob : Int
  team_id : Option String

/-- The `PromptCreator` object: constructor arguments plus the mutable
`prompt_template` that `_remove_part` / `_replace_part` rewrite in place. -/
structure PromptCreator where
  language : String
  prompt_template : List Char
  n_rounds : Nat
  n_rounds_known : Bool
  payoff_matrix : MatrixData
  teams : Option (List (String × List String))

/-- Placeholder dictionaries map names to already-rendered text (Python's
`format` applies `str` to non-string values; numbers render as their decimal
form, `None` as `"None"`). -/
def py_opt_str : Option String → List Char
  | some s => s.data
  | none => cs "None"

/-- `", ".join`. -/
def join_comma : List String → List Char
  | [] => []
  | [x] => x.data
  | x :: y :: rest => x.data ++ cs ", " ++ join_comma (y :: rest)

/-- `f"base{i}"`-numbered bindings, `i` counting from `start`. -/
def numbered (base : List Char) : Nat → List (List Char) → List (List Char × List Char)
  | _, [] => []
  | i, v :: vs => (base ++ (toString i).data, v) :: numbered base (i + 1) vs

/-- The strategy / weight / opponent placeholders of `map_placeholders`. -/
def placeholder_tail (cr : PromptCreator) (opponents : List PAgent) :
    List (List Char × List Char) :=
  numbered (cs "strategy") 1 (cr.payoff_matrix.strategies.map (fun kv => kv.2.data))
  ++ numbered (cs "weight") 1
       (cr.payoff_matrix.weights.map (fun kv => (toString kv.2).data))
  ++ numbered (cs "opponent") 1 (opponents.map (fun o => o.name.data))

/-- `PromptCreator.map_placeholders`: the base placeholder dict. The raised
`KeyError` is `self.teams[agent.team_id]` on an unknown team id; `history` is
the `str()` rendering of the history dict, taken here as input text. -/
def map_placeholders (cr : PromptCreator) (agent : PAgent) (opponents : List PAgent)
    (current_round : Nat) (history : List Char) :
    Except String (List (List Char × List Char)) :=
  let base := [(cs "currentPlayerName", agent.name.data),
               (cs "currentRound", (toString current_round).data),
               (cs "history", history),
               (cs "teamId", py_opt_str agent.team_id)]
  match cr.teams, agent.team_id with
  | some ts, some tid =>
    (match aget ts tid with
     | none => Except.error ("KeyError: " ++ tid)
     | some members =>
       Except.ok (base ++
         [(cs "teammates", join_comma (members.filter (fun n => n != agent.name)))] ++
         placeholder_tail cr opponents))
  | _, _ => Except.ok (base ++ placeholder_tail cr opponents)

/-- `PromptCreator.process_intro`: remove the `intro` section when the
personality is the sentinel `"None"`, otherwise keep its body and bind
`personality`. -/
def process_intro (agent : PAgent) (t : List Char)
    (pv : List (List Char × List Char)) : List Char × List (List Char × List Char) :=
  match find_part (cs "intro") t with
  | none => (t, pv)
  | some (g0, body) =>
    if agent.personality = "None" then (replace_all t g0 [], pv)
    else (replace_all t g0 body, aset pv (cs "personality") agent.personality.data)

/-- The per-opponent placeholder loop of `process_opponent_intro`
(1-indexed). -/
def bind_opponents : List (List Char × List Char) → Nat → List PAgent →
    List (List Char × List Char)
  | pv, _, [] => pv
  | pv, i, o :: os =>
    bind_opponents
      (aset (aset (aset pv (cs "opponent" ++ (toString i).data) o.name.data)
              (cs "opponentPersonality" ++ (toString i).data) o.personality.data)
            (cs "opponentPersonalityProbability" ++ (toString i).data)
            (toString o.opponent_personality_prob).data)
      (i + 1) os

/-- `PromptCreator.process_opponent_intro`: the section survives iff at least
one opponent has a non-zero probability and a personality other than
`"None"`. -/
def process_opponent_intro (opponents : List PAgent) (t : List Char)
    (pv : List (List Char × List Char)) : List Char × List (List Char × List Char) :=
  match find_part (cs "opponentIntro") t with
  | none => (t, pv)
  | some (g0, body) =>
    if opponents.any (fun o => o.opponent_personality_prob != 0 && o.personality != "None") then
      (replace_all t g0 body, bind_opponents pv 1 opponents)
    else (replace_all t g0 [], pv)

/-- `PromptCreator.process_game_length`. -/
def process_game_length (cr : PromptCreator) (t : List Char)
    (pv : List (List Char × List Char)) : List Char × List (List Char × List Char) :=
  match find_part (cs "gameLength") t with
  | none => (t, pv)
  | some (g0, body) =>
    if cr.n_rounds_known then
      (replace_all t g0 body, aset pv (cs "nRounds") (toString cr.n_rounds).data)
    else (replace_all t g0 [], pv)

/-- Scanner state of `str.format`: ordinary text, just after `{`, just after
`}`, or inside a replacement field accumulating the (reversed) name. -/
inductive FmtState where
  | lit : FmtState
  | openB : FmtState
  | closeB : FmtState
  | field : List Char → FmtState

/-- `str.format(**mapping)` for the plain-name fields the engine's templates
use: `{name}` is substituted from the mapping (`KeyError` when unbound — the
"template error"), `{{`/`}}` are brace escapes, a lone `{` or `}` is a
`ValueError`. Format specs and attribute access inside fields are not used by
the repository's templates; a field text containing them is treated as an
(unbound) name here, so both sides agree that such a render fails. -/
def py_format_aux (pv : List (List Char × List Char)) :
    List Char → FmtState → Except String (List Char)
  | [], FmtState.lit => Except.ok []
  | [], FmtState.openB => Except.error "ValueError: Single brace encountered in format string"
  | [], FmtState.closeB => Except.error "ValueError: Single brace encountered in format string"
  | [], FmtState.field _ => Except.error "ValueError: Single brace encountered in format string"
  | c :: rest, FmtState.lit =>
    if c = '{' then py_format_aux pv rest FmtState.openB
    else if c = '}' then py_format_aux pv rest FmtState.closeB
    else (py_format_aux pv rest FmtState.lit).map (fun s => c :: s)
  | c :: rest, FmtState.openB =>
    if c = '{' then (py_format_aux pv rest FmtState.lit).map (fun s => '{' :: s)
    else if c = '}' then
      (match aget pv [] with
       | some v => (py_format_aux pv rest FmtState.lit).map (fun s => v ++ s)
       | none => Except.error "KeyError: empty field name")
    else py_format_aux pv rest (FmtState.field [c])
  | c :: rest, FmtState.closeB =>
    if c = '}' then (py_format_aux pv rest FmtState.lit).map (fun s => '}' :: s)
    else Except.error "ValueError: Single brace encountered in format string"
  | c :: rest, FmtState.field acc =>
    if c = '}' then
      (match aget pv acc.reverse with
       | some v => (py_format_aux pv rest FmtState.lit).map (fun s => v ++ s)
       | none => Except.error ("KeyError: " ++ String.mk acc.reverse))
    else py_format_aux pv rest (FmtState.field (c :: acc))

def py_format (t : List Char) (pv : List (List Char × List Char)) :
    Except String (List Char) := py_format_aux pv t FmtState.lit

/-- The field names `str.format` resolves while scanning `t` from state
`st` (empty past the point where the scan errors out). -/
def field_names_aux : List Char → FmtState → List (List Char)
  | [], _ => []
  | c :: rest, FmtState.lit =>
    if c = '{' then field_names_aux rest FmtState.openB
    else if c = '}' then field_names_aux rest FmtState.closeB
    else field_names_aux rest FmtState.lit
  | c :: rest, FmtState.openB =>
    if c = '{' then field_names_aux rest FmtState.lit
    else if c = '}' then [] :: field_names_aux rest FmtState.lit
    else field_names_aux rest (FmtState.field [c])
  | c :: rest, FmtState.closeB =>
    if c = '}' then field_names_aux rest FmtState.lit else []
  | c :: rest, FmtState.field acc =>
    if c = '}' then acc.reverse :: field_names_aux rest FmtState.lit
    else field_names_aux rest (FmtState.field (c :: acc))

def field_names (t : List Char) : List (List Char) := field_names_aux t FmtState.lit

/-- Section resolution inside `fill_template`: process `intro`,
`opponentIntro` and `gameLength`, then look up both phase sections on the
resulting template and, for a known phase, keep that phase's body and remove
the other section. Returns the processed template — the value left in
`self.prompt_template` — together with the final placeholder dict. -/
def resolved_template (cr : PromptCreator) (agent : PAgent) (opponents : List PAgent)
    (pv0 : List (List Char × List Char)) (phase : String) :
    List Char × List (List Char × List Char) :=
  let r1 := process_intro agent cr.prompt_template pv0
  let r2 := process_opponent_intro opponents r1.1 r1.2
  let r3 := process_game_length cr r2.1 r2.2
  if phase = "communicate" then
    (remove_part (keep_body r3.1 (find_part (cs "communicate") r3.1))
       (find_part (cs "choose") r3.1), r3.2)
  else if phase = "choose" then
    (remove_part (keep_body r3.1 (find_part (cs "choose") r3.1))
       (find_part (cs "communicate") r3.1), r3.2)
  else (r3.1, r3.2)

/-- `PromptCreator.fill_template`: build the placeholders (a `KeyError` there
propagates before any template surgery), resolve the optional and phase
sections — mutating `self.prompt_template` — and `format` the result. The
returned creator is the object as the call leaves it. -/
def fill_template (cr : PromptCreator) (agent : PAgent) (opponents : List PAgent)
    (current_round : Nat) (history : List Char) (phase : String) :
    Except String (List Char) × PromptCreator :=
  match map_placeholders cr agent opponents current_round history with
  | Except.error e => (Except.error e, cr)
  | Except.ok pv0 =>
    (py_format (resolved_template cr agent opponents pv0 phase).1
       (resolved_template cr agent opponents pv0 phase).2,
     { cr with prompt_template := (resolved_template cr agent opponents pv0 phase).1 })

/-- The template of the C5 counterexample: an `intro` section whose body uses
the `personality` placeholder, followed by fixed choice text. -/
def cexCreator : PromptCreator :=
  { language := "en",
    prompt_template := cs "{intro}:[I am {personality}. ]Choose {strategy1} or reply.",
    n_rounds := 3, n_rounds_known := false,
    payoff_matrix := oneSlotMatrix, teams := none }

def cexAgent : PAgent :=
  { name := "agent1", personality := "kind",
    opponent_personality_prob := 0, team_id := none }

/-- The placeholder dict `map_placeholders` builds for the C7 witness render. -/
def cexPv : List (List Char × List Char) :=
  [(cs "currentPlayerName", cs "agent1"), (cs "currentRound", cs "1"),
   (cs "history", []), (cs "teamId", cs "None"),
   (cs "strategy1", cs "Betray"), (cs "weight1", cs "5")]

/-! ## Theorems -/

theorem aget_aset_same {κ α : Type} [DecidableEq κ] (m : List (κ × α)) (k : κ) (v : α) :
    aget (aset m k v) k = some v := by
  induction m with
  | nil => simp [aget, aset]
  | cons kv rest ih =>
    by_cases h : kv.1 = k
    · simp [aset, aget, h]
    · simp [aset, aget, h, ih]

theorem aget_aset_other {κ α : Type} [DecidableEq κ] (m : List (κ × α)) (k k' : κ) (v : α)
    (h : k' ≠ k) : aget (aset m k v) k' = aget m k' := by
  induction m with
  | nil =>
    simp only [aset, aget]
    rw [if_neg (fun hh => h hh.symm)]
  | cons kv rest ih =>
    by_cases hk : kv.1 = k
    · subst hk
      simp only [aset, if_pos rfl, aget]
      rw [if_neg (fun hh => h hh.symm), if_neg (fun hh => h hh.symm)]
    · simp only [aset, if_neg hk, aget]
      by_cases hk' : kv.1 = k'
      · simp [hk']
      · simp [hk', ih]

/-- C6: `get_weights_for_combination` is order-sensitive on the reference
matrix: `["Betray","Betray"] ↦ (3,3)`, `["Betray","Cooperate"] ↦ (5,0)`,
`["Cooperate","Betray"] ↦ (0,5)`, `["Cooperate","Cooperate"] ↦ (1,1)`, and the
two mixed inputs yield swapped, unequal results. -/
theorem get_weights_for_combination_order_sensitive :
    get_weights_for_combination pdMatrix ["Betray", "Betray"] = Except.ok [3, 3] ∧
    get_weights_for_combination pdMatrix ["Betray", "Cooperate"] = Except.ok [5, 0] ∧
    get_weights_for_combination pdMatrix ["Cooperate", "Betray"] = Except.ok [0, 5] ∧
    get_weights_for_combination pdMatrix ["Cooperate", "Cooperate"] = Except.ok [1, 1] ∧
    get_weights_for_combination pdMatrix ["Betray", "Cooperate"] ≠
      get_weights_for_combination pdMatrix ["Cooperate", "Betray"] := by
  refine ⟨rfl, rfl, rfl, rfl, ?_⟩
  intro h
  rw [show get_weights_for_combination pdMatrix ["Betray", "Cooperate"]
        = Except.ok [5, 0] from rfl,
      show get_weights_for_combination pdMatrix ["Cooperate", "Betray"]
        = Except.ok [0, 5] from rfl] at h
  simp at h

/-! ## C1: error behaviour of `attribute_scores` -/

/-- Positional score assignment: agent `i` receives the `i`-th resolved weight;
when the weights run out the remaining agents are untouched (`break`), and
surplus weights are dropped. -/
theorem assign_scores_eq (weights : List (String × Int)) :
    ∀ (agents : List (List Int)) (ws : List String) (vs : List Int),
    resolve_weights weights ws = Except.ok vs →
    assign_scores weights agents ws =
      Except.ok (List.zipWith (fun a v => a ++ [v]) agents vs ++ agents.drop vs.length) := by
  intro agents
  induction agents with
  | nil =>
    intro ws vs _
    simp [assign_scores]
  | cons a rest ih =>
    intro ws vs hres
    cases ws with
    | nil =>
      simp only [resolve_weights] at hres
      cases hres
      simp [assign_scores]
    | cons w ws' =>
      simp only [resolve_weights] at hres
      cases hw : aget weights w with
      | none => rw [hw] at hres; cases hres
      | some v =>
        rw [hw] at hres
        cases hres' : resolve_weights weights ws' with
        | error e => rw [hres'] at hres; cases hres
        | ok vs' =>
          rw [hres'] at hres
          cases hres
          simp only [assign_scores, hw, ih ws' vs' hres']
          simp [List.zipWith, List.drop]

/-- C1 counterexample: two agents, a matching combination whose weight list has
length 1 ≠ 2. The claim's "iff" demands a lookup error here, but
`attribute_scores` returns successfully, scoring only the first agent and
leaving the second untouched (the `if not weight_keys: break` path). -/
theorem attribute_scores_no_length_error :
    attribute_scores oneSlotMatrix [[], []] ["s1"] = Except.ok [[5], []] ∧
    aget oneSlotMatrix.matrix "c1" = some ["w1"] ∧
    (["w1"] : List String).length ≠ ([[], []] : List (List Int)).length :=
  ⟨rfl, rfl, by decide⟩

/-- C1 (amended): `attribute_scores` raises a lookup error exactly when no
stored combination's key sequence equals the input; when the (first) matching
combination's weight labels resolve, it appends to the first
`min (#agents) (#weights)` agents, in positional order, the weight at that
agent's position, leaving any remaining agents unchanged — no length check is
performed. -/
theorem attribute_scores_spec (md : MatrixData) (agents : List (List Int))
    (rs : List String) :
    ((∀ kv ∈ md.combinations, kv.2 ≠ rs) →
       attribute_scores md agents rs = Except.error "Combination not found.")
    ∧ (∀ ck ws vs,
         md.combinations.find? (fun kv => kv.2 == rs) = some (ck, rs) →
         aget md.matrix ck = some ws →
         resolve_weights md.weights ws = Except.ok vs →
         attribute_scores md agents rs =
           Except.ok (List.zipWith (fun a v => a ++ [v]) agents vs ++
                      agents.drop vs.length)) := by
  constructor
  · intro hno
    have hfind : md.combinations.find? (fun kv => kv.2 == rs) = none := by
      rw [List.find?_eq_none]
      intro kv hkv
      simpa using hno kv hkv
    simp [attribute_scores, get_combination_key, hfind]
  · intro ck ws vs hfind hmat hres
    simp [attribute_scores, get_combination_key, hfind, hmat,
          assign_scores_eq md.weights agents ws vs hres]

/-- Witness for C1's amended theorem: on the one-slot matrix with two agents,
the matching combination scores agent 1 with 5 and leaves agent 2 alone. -/
theorem attribute_scores_spec_witness :
    attribute_scores oneSlotMatrix [[], []] ["s1"] = Except.ok [[5], []] :=
  (attribute_scores_spec oneSlotMatrix [[], []] ["s1"]).2
    "c1" ["w1"] [5] rfl rfl rfl

theorem most_common_fold_spec (cnt : String → Nat) :
    ∀ (keys : List String) (b : String),
    ∃ m pre post,
      keys.foldl (mc_step cnt) (some b) = some m ∧
      b :: keys = pre ++ m :: post ∧
      (∀ x ∈ pre, cnt x < cnt m) ∧
      (∀ x ∈ b :: keys, cnt x ≤ cnt m) := by
  intro keys
  induction keys with
  | nil =>
    intro b
    exact ⟨b, [], [], rfl, rfl, by simp, by simp⟩
  | cons c rest ih =>
    intro b
    by_cases hbc : cnt b < cnt c
    · obtain ⟨m, pre, post, hfold, hdec, hpre, hall⟩ := ih c
      refine ⟨m, b :: pre, post, ?_, ?_, ?_, ?_⟩
      · simpa [mc_step, hbc] using hfold
      · simpa using congrArg (List.cons b) hdec
      · intro x hx
        rcases List.mem_cons.mp hx with rfl | hx
        · exact lt_of_lt_of_le hbc (hall c (by simp))
        · exact hpre x hx
      · intro x hx
        rcases List.mem_cons.mp hx with rfl | hx
        · exact le_of_lt (lt_of_lt_of_le hbc (hall c (by simp)))
        · exact hall x hx
    · obtain ⟨m, pre, post, hfold, hdec, hpre, hall⟩ := ih b
      have hcb : cnt c ≤ cnt b := Nat.le_of_not_lt hbc
      cases pre with
      | nil =>
        obtain ⟨rfl, rfl⟩ : m = b ∧ post = rest := by
          simpa using hdec.symm
        refine ⟨m, [], c :: post, ?_, by simp, by simp, ?_⟩
        · simpa [mc_step, hbc] using hfold
        · intro x hx
          rcases List.mem_cons.mp hx with rfl | hx
          · exact le_refl _
          · rcases List.mem_cons.mp hx with rfl | hx
            · exact hcb
            · exact hall x (by simp [hx])
      | cons p pre' =>
        have hcons : b :: rest = p :: (pre' ++ m :: post) := by simpa using hdec
        injection hcons with hbp hrest
        subst hbp
        have hbm : cnt b < cnt m := hpre b (by simp)
        refine ⟨m, b :: c :: pre', post, ?_, ?_, ?_, ?_⟩
        · simpa [mc_step, hbc] using hfold
        · simp [hrest]
        · intro x hx
          rcases List.mem_cons.mp hx with rfl | hx
          · exact hbm
          · rcases List.mem_cons.mp hx with rfl | hx
            · exact lt_of_le_of_lt hcb hbm
            · exact hpre x (List.mem_cons_of_mem _ hx)
        · intro x hx
          rcases List.mem_cons.mp hx with rfl | hx
          · exact le_of_lt hbm
          · rcases List.mem_cons.mp hx with rfl | hx
            · exact le_trans hcb (le_of_lt hbm)
            · exact hall x (List.mem_cons_of_mem _ hx)

theorem mem_counter_keys_fuel :
    ∀ (fuel : Nat) (l : List String), l.length ≤ fuel →
    ∀ x, x ∈ counter_keys_fuel fuel l ↔ x ∈ l := by
  intro fuel
  induction fuel with
  | zero =>
    intro l hl x
    cases l with
    | nil => simp [counter_keys_fuel]
    | cons c rest => simp at hl
  | succ fuel ih =>
    intro l hl x
    cases l with
    | nil => simp [counter_keys_fuel]
    | cons c rest =>
      have hflen : (rest.filter (fun x => x != c)).length ≤ fuel :=
        le_trans (List.length_filter_le _ _) (Nat.le_of_succ_le_succ hl)
      simp only [counter_keys_fuel, List.mem_cons, ih _ hflen x, List.mem_filter,
        bne_iff_ne]
      by_cases hxc : x = c
      · simp [hxc]
      · simp [hxc]

/-- Filtering preserves relative order: if `y` comes no later than `z` in
`r.filter p`, it also comes no later in `r`. -/
theorem indexOf_filter_le (p : String → Bool) :
    ∀ (r : List String) (y z : String), y ∈ r.filter p → z ∈ r.filter p →
    (r.filter p).indexOf y ≤ (r.filter p).indexOf z →
    r.indexOf y ≤ r.indexOf z := by
  intro r
  induction r with
  | nil => intro y z hy _ _; simp at hy
  | cons a r2 ih =>
    intro y z hy hz hle
    by_cases hpa : p a
    · by_cases hya : y = a
      · subst hya
        simp [List.indexOf_cons_self]
      · have hy2 : y ∈ r2.filter p := by
          rw [List.filter_cons_of_pos hpa] at hy
          rcases List.mem_cons.mp hy with h | h
          · exact absurd h hya
          · exact h
        by_cases hza : z = a
        · subst hza
          rw [List.filter_cons_of_pos hpa] at hle
          rw [List.indexOf_cons_self,
              List.indexOf_cons_ne _ (fun h => hya h.symm)] at hle
          exact absurd hle (Nat.not_succ_le_zero _)
        · have hz2 : z ∈ r2.filter p := by
            rw [List.filter_cons_of_pos hpa] at hz
            rcases List.mem_cons.mp hz with h | h
            · exact absurd h hza
            · exact h
          rw [List.filter_cons_of_pos hpa,
              List.indexOf_cons_ne _ (fun h => hya h.symm),
              List.indexOf_cons_ne _ (fun h => hza h.symm)] at hle
          have := ih y z hy2 hz2 (Nat.le_of_succ_le_succ hle)
          rw [List.indexOf_cons_ne _ (fun h => hya h.symm),
              List.indexOf_cons_ne _ (fun h => hza h.symm)]
          exact Nat.succ_le_succ this
    · have hy2 : y ∈ r2.filter p := by simpa [List.filter_cons_of_neg hpa] using hy
      have hz2 : z ∈ r2.filter p := by simpa [List.filter_cons_of_neg hpa] using hz
      have hya : y ≠ a := by
        intro h; subst h
        exact hpa (List.of_mem_filter hy2)
      have hza : z ≠ a := by
        intro h; subst h
        exact hpa (List.of_mem_filter hz2)
      rw [List.filter_cons_of_neg hpa] at hle
      have := ih y z hy2 hz2 hle
      rw [List.indexOf_cons_ne _ (fun h => hya h.symm),
          List.indexOf_cons_ne _ (fun h => hza h.symm)]
      exact Nat.succ_le_succ this

/-- The key list of the counter respects first occurrence: a key that appears
after `m` in `counter_keys_fuel fuel l` first occurs in `l` no earlier than `m`
does. -/
theorem counter_keys_order (x m : String) :
    ∀ (fuel : Nat) (l : List String) (pre post : List String), l.length ≤ fuel →
    counter_keys_fuel fuel l = pre ++ m :: post →
    x ∈ post → l.indexOf m ≤ l.indexOf x := by
  intro fuel
  induction fuel with
  | zero =>
    intro l pre post hl heq hx
    cases l with
    | nil => simp [counter_keys_fuel] at heq
    | cons c rest => simp at hl
  | succ fuel ih =>
    intro l pre post hl heq hx
    cases l with
    | nil =>
      simp [counter_keys_fuel] at heq
    | cons c rest =>
      simp only [counter_keys_fuel] at heq
      cases pre with
      | nil =>
        simp only [List.nil_append] at heq
        injection heq with hm hpost
        subst hm
        simp [List.indexOf_cons_self]
      | cons p pre' =>
        injection heq with hp hkeys
        have hflen : (rest.filter (fun t => t != c)).length ≤ fuel :=
          le_trans (List.length_filter_le _ _) (Nat.le_of_succ_le_succ hl)
        have hmmem : m ∈ rest.filter (fun t => t != c) := by
          rw [← mem_counter_keys_fuel fuel _ hflen]
          rw [hkeys]
          simp
        have hxmem : x ∈ rest.filter (fun t => t != c) := by
          rw [← mem_counter_keys_fuel fuel _ hflen]
          rw [hkeys]
          simp [hx]
        have hmne : m ≠ c := by simpa using (List.mem_filter.mp hmmem).2
        have hxne : x ≠ c := by simpa using (List.mem_filter.mp hxmem).2
        have hidxf : (rest.filter (fun t => t != c)).indexOf m ≤
            (rest.filter (fun t => t != c)).indexOf x := by
          have hfilter := ih (rest.filter (fun t => t != c)) pre' post hflen hkeys hx
          exact hfilter
        have hrest := indexOf_filter_le (fun t => t != c) rest m x hmmem hxmem hidxf
        rw [List.indexOf_cons_ne _ (fun h => hmne h.symm),
            List.indexOf_cons_ne _ (fun h => hxne h.symm)]
        exact Nat.succ_le_succ hrest

/-- C4: `_majority_vote` on a non-empty list of member strategy labels returns
a most frequent label; among equally frequent labels it returns the one whose
first occurrence in the input list is earliest (the stable tie-break of
`Counter.most_common`); the function is deterministic; and `["C","C","D"]`
aggregates to `"C"`. -/
theorem majority_vote_spec (choices : List String) (hne : choices ≠ []) :
    (∃ m, majority_vote choices = some m ∧ m ∈ choices ∧
       (∀ x ∈ choices, choices.count x ≤ choices.count m) ∧
       (∀ x ∈ choices, choices.count x = choices.count m →
          choices.indexOf m ≤ choices.indexOf x)) ∧
    majority_vote choices = majority_vote choices ∧
    majority_vote ["C", "C", "D"] = some "C" := by
  refine ⟨?_, rfl, by decide⟩
  cases choices with
  | nil => exact absurd rfl hne
  | cons c rest =>
    obtain ⟨m, pre, post, hfold, hdec, hpre, hall⟩ :=
      most_common_fold_spec (fun x => (c :: rest).count x)
        (counter_keys_fuel rest.length (rest.filter (fun x => x != c))) c
    have hck : counter_keys (c :: rest) =
        c :: counter_keys_fuel rest.length (rest.filter (fun x => x != c)) := rfl
    have hmv : majority_vote (c :: rest) = some m := by
      rw [majority_vote, most_common_head, hck, List.foldl_cons]
      rw [show mc_step (fun x => (c :: rest).count x) none c = some c from rfl]
      exact hfold
    have hdecck : counter_keys (c :: rest) = pre ++ m :: post := hck.trans hdec
    have hmemiff : ∀ x, x ∈ counter_keys (c :: rest) ↔ x ∈ c :: rest :=
      mem_counter_keys_fuel (c :: rest).length (c :: rest) (le_refl _)
    have hmmem : m ∈ c :: rest := by
      rw [← hmemiff m, hdecck]
      simp
    refine ⟨m, hmv, hmmem, ?_, ?_⟩
    · intro x hx
      have : x ∈ counter_keys (c :: rest) := (hmemiff x).mpr hx
      rw [hck] at this
      exact hall x this
    · intro x hx hcount
      have hxck : x ∈ counter_keys (c :: rest) := (hmemiff x).mpr hx
      rw [hdecck] at hxck
      rcases List.mem_append.mp hxck with hxpre | hxmid
      · exact absurd hcount (Nat.ne_of_lt (hpre x hxpre))
      · rcases List.mem_cons.mp hxmid with rfl | hxpost
        · exact le_refl _
        · exact counter_keys_order x m (c :: rest).length (c :: rest) pre post
            (le_refl _) hdecck hxpost

/-- Witness for C4 at a concrete tied input: in `["C","D","D","C"]` both labels
occur twice; the earliest-first-occurring label `"C"` is selected, it is a
maximal-count label, and its first occurrence is no later than that of `"D"`. -/
theorem majority_vote_spec_witness :
    (["C", "D", "D", "C"] : List String) ≠ [] ∧
    (∃ m, majority_vote ["C", "D", "D", "C"] = some m ∧ m ∈ ["C", "D", "D", "C"] ∧
       (∀ x ∈ (["C", "D", "D", "C"] : List String),
          List.count x ["C", "D", "D", "C"] ≤ List.count m ["C", "D", "D", "C"]) ∧
       (∀ x ∈ (["C", "D", "D", "C"] : List String),
          List.count x ["C", "D", "D", "C"] = List.count m ["C", "D", "D", "C"] →
          List.indexOf m ["C", "D", "D", "C"] ≤ List.indexOf x ["C", "D", "D", "C"])) :=
  ⟨by decide, (majority_vote_spec ["C", "D", "D", "C"] (by decide)).1⟩

theorem undigits_dec_digits_rev :
    ∀ (fuel n : Nat), n ≤ fuel → undigits (dec_digits_rev fuel n) = n := by
  intro fuel
  induction fuel with
  | zero =>
    intro n hn
    interval_cases n
    simp [dec_digits_rev, undigits]
  | succ fuel ih =>
    intro n hn
    cases n with
    | zero => simp [dec_digits_rev, undigits]
    | succ k =>
      have hdiv : (k + 1) / 10 ≤ fuel := by
        have h1 : (k + 1) / 10 < k + 1 := Nat.div_lt_self (Nat.succ_pos k) (by omega)
        omega
      simp only [dec_digits_rev, undigits, ih _ hdiv]
      omega

theorem dec_digits_rev_lt_ten :
    ∀ (fuel n : Nat) (d : Nat), d ∈ dec_digits_rev fuel n → d < 10 := by
  intro fuel
  induction fuel with
  | zero => intro n d hd; simp [dec_digits_rev] at hd
  | succ fuel ih =>
    intro n d hd
    cases n with
    | zero => simp [dec_digits_rev] at hd
    | succ k =>
      simp only [dec_digits_rev, List.mem_cons] at hd
      rcases hd with rfl | hd
      · exact Nat.mod_lt _ (by omega)
      · exact ih _ d hd

theorem digit_char_toNat : ∀ d : Nat, d < 10 → (digit_char d).toNat = 48 + d := by
  decide

theorem unchars_digits :
    ∀ (ds : List Nat), (∀ d ∈ ds, d < 10) →
    unchars ((ds.map digit_char).reverse) = undigits ds := by
  intro ds
  induction ds with
  | nil => intro _; simp [unchars, undigits]
  | cons d rest ih =>
    intro hbound
    have hd : d < 10 := hbound d (by simp)
    simp only [List.map_cons, List.reverse_cons, undigits]
    rw [unchars, List.foldl_append]
    have hrest := ih (fun x hx => hbound x (by simp [hx]))
    rw [unchars] at hrest
    simp only [List.foldl_cons, List.foldl_nil, hrest]
    rw [digit_char_toNat d hd]
    omega

/-- `str` is injective on naturals: parsing the numeral recovers the number. -/
theorem unchars_nat_chars (n : Nat) : unchars (nat_chars n) = n := by
  by_cases h0 : n = 0
  · subst h0; decide
  · rw [nat_chars, if_neg h0]
    rw [unchars_digits _ (fun d hd => dec_digits_rev_lt_ten n n d hd)]
    exact undigits_dec_digits_rev n n (le_refl n)

theorem round_key_injective (a b : Nat) (h : round_key a = round_key b) : a = b := by
  have hdata : "round_".data ++ nat_chars a = "round_".data ++ nat_chars b :=
    congrArg String.data h
  have hchars : nat_chars a = nat_chars b := by
    exact List.append_cancel_left hdata
  calc a = unchars (nat_chars a) := (unchars_nat_chars a).symm
    _ = unchars (nat_chars b) := congrArg unchars hchars
    _ = b := unchars_nat_chars b

theorem aget_dict_update_not_mem {α : Type} (f : String) :
    ∀ (upd old : List (String × α)), (∀ kv ∈ upd, kv.1 ≠ f) →
    aget (dict_update old upd) f = aget old f := by
  intro upd
  induction upd with
  | nil => intro old _; rfl
  | cons kv rest ih =>
    intro old hno
    have hstep : dict_update old (kv :: rest) = dict_update (aset old kv.1 kv.2) rest := rfl
    rw [hstep, ih _ (fun x hx => hno x (List.mem_cons_of_mem _ hx)),
        aget_aset_other _ _ _ _ (fun hh => hno kv (by simp) hh.symm)]

/-- Field-level semantics of `dict.update`: a field takes its value from `upd`
when present there, and keeps its old value otherwise. -/
theorem aget_dict_update {α : Type} (f : String) :
    ∀ (upd old : List (String × α)), (upd.map Prod.fst).Nodup →
    aget (dict_update old upd) f =
      (if (aget upd f).isSome then aget upd f else aget old f) := by
  intro upd
  induction upd with
  | nil => intro old _; simp [dict_update, aget]
  | cons kv rest ih =>
    intro old hnd
    rw [List.map_cons, List.nodup_cons] at hnd
    have hstep : dict_update old (kv :: rest) = dict_update (aset old kv.1 kv.2) rest := rfl
    by_cases hf : kv.1 = f
    · subst hf
      have hrest : ∀ x ∈ rest, x.1 ≠ kv.1 := by
        intro x hx hxk
        exact hnd.1 (hxk ▸ List.mem_map_of_mem Prod.fst hx)
      rw [hstep, aget_dict_update_not_mem _ rest _ hrest, aget_aset_same]
      simp [aget]
    · rw [hstep, ih _ hnd.2]
      have hcons : aget (kv :: rest) f = aget rest f := by simp [aget, hf]
      rw [hcons]
      cases aget rest f with
      | some v => rfl
      | none => simp [aget_aset_other _ _ _ _ (fun hh => hf hh.symm)]

/-- C8: `update_round` merges `data` into the `(round, agent)` record — fields
named in `data` take their new value, all other previously written fields are
retained — and every record of every other `(round, agent)` pair is unchanged.
Two successive updates therefore leave one record holding the union of their
fields, as the spec's `{message: "hi"}` then `{strategy: "C score:1"}` example
shows. -/
theorem update_round_spec {α : Type} (h : GameHistory α) (n : Nat) (a : String)
    (d : List (String × α)) (hd : (d.map Prod.fst).Nodup) :
    (∀ f, aget (history_record (update_round h n a d) n a) f =
       (if (aget d f).isSome then aget d f else aget (history_record h n a) f))
    ∧ (∀ (n2 : Nat) (a2 : String), n2 ≠ n ∨ a2 ≠ a →
         history_record (update_round h n a d) n2 a2 = history_record h n2 a2)
    ∧ history_record (update_round (update_round (⟨[]⟩ : GameHistory String) 1 "a"
         [("message", "hi")]) 1 "a" [("strategy", "C score:1")]) 1 "a"
       = [("message", "hi"), ("strategy", "C score:1")] := by
  refine ⟨?_, ?_, by decide⟩
  · intro f
    cases hrk : aget h.rounds (round_key n) with
    | some m =>
      cases hag : aget m a with
      | some r =>
        simp only [update_round, history_record, hrk, hag, aget_aset_same]
        exact aget_dict_update f d r hd
      | none =>
        simp only [update_round, history_record, hrk, hag, aget_aset_same]
        exact aget_dict_update f d [] hd
    | none =>
      simp only [update_round, history_record, hrk, aget_aset_same]
      simp only [show aget ([] : List (String × List (String × α))) a = none from rfl,
        aget_aset_same]
      exact aget_dict_update f d [] hd
  · intro n2 a2 hne
    rcases hne with hn2 | ha2
    · have hkey : round_key n2 ≠ round_key n :=
        fun hk => hn2 (round_key_injective n2 n hk)
      simp only [update_round, history_record,
        aget_aset_other _ _ _ _ hkey]
    · by_cases hkey : round_key n2 = round_key n
      · rw [history_record, history_record, hkey]
        cases hrk : aget h.rounds (round_key n) with
        | some m =>
          simp only [update_round, hrk, aget_aset_same,
            aget_aset_other _ _ _ _ ha2]
        | none =>
          simp only [update_round, hrk, aget_aset_same,
            aget_aset_other _ _ _ _ ha2]
          rfl
      · simp only [update_round, history_record,
          aget_aset_other _ _ _ _ hkey]

/-- Witness for C8: merging `{strategy: "C score:1"}` over an existing
`{message: "hi"}` record keeps the old field, adds the new one, and leaves a
record of a different agent untouched. -/
theorem update_round_spec_witness :
    (([("strategy", "C score:1")] : List (String × String)).map Prod.fst).Nodup
    ∧ ((∀ f, aget (history_record (update_round
           (update_round (⟨[]⟩ : GameHistory String) 1 "a" [("message", "hi")])
           1 "a" [("strategy", "C score:1")]) 1 "a") f =
         (if (aget [("strategy", "C score:1")] f).isSome
          then aget [("strategy", "C score:1")] f
          else aget (history_record
              (update_round (⟨[]⟩ : GameHistory String) 1 "a" [("message", "hi")])
              1 "a") f))
       ∧ (∀ (n2 : Nat) (a2 : String), n2 ≠ 1 ∨ a2 ≠ "a" →
            history_record (update_round
              (update_round (⟨[]⟩ : GameHistory String) 1 "a" [("message", "hi")])
              1 "a" [("strategy", "C score:1")]) n2 a2 =
            history_record
              (update_round (⟨[]⟩ : GameHistory String) 1 "a" [("message", "hi")])
              n2 a2)
       ∧ history_record (update_round (update_round (⟨[]⟩ : GameHistory String) 1 "a"
            [("message", "hi")]) 1 "a" [("strategy", "C score:1")]) 1 "a"
          = [("message", "hi"), ("strategy", "C score:1")]) := by
  refine ⟨by decide, ?_⟩
  exact update_round_spec
     (update_round (⟨[]⟩ : GameHistory String) 1 "a" [("message", "hi")])
     1 "a" [("strategy", "C score:1")] (by decide)

/-- C9 (code bug): `get_info` never returns a snapshot — on every agent, with
or without a team id, it raises `AttributeError` because `role_index` is never
initialized anywhere in the repository. -/
theorem get_info_always_raises :
    get_info { name := "agent1", llm_service := "openai", personality := "None",
               opponent_personality_prob := 0, team_id := none }
      = Except.error "AttributeError: Agent object has no attribute role_index" ∧
    get_info { name := "agent2", llm_service := "openai",
               personality := "cooperative",
               opponent_personality_prob := 50, team_id := some "A" }
      = Except.error "AttributeError: Agent object has no attribute role_index" :=
  ⟨rfl, rfl⟩

theorem find?_first {α : Type} (p : α → Bool) :
    ∀ (l : List α) (x : α), l.find? p = some x →
    ∃ pre post, l = pre ++ x :: post ∧ p x = true ∧ ∀ y ∈ pre, p y = false := by
  intro l
  induction l with
  | nil => intro x hx; simp at hx
  | cons a rest ih =>
    intro x hx
    cases hp : p a with
    | true =>
      rw [List.find?_cons_of_pos _ hp] at hx
      injection hx with hx
      subst hx
      exact ⟨[], rest, rfl, hp, by simp⟩
    | false =>
      rw [List.find?_cons_of_neg _ (by simp [hp])] at hx
      obtain ⟨pre, post, hdec, hpx, hpre⟩ := ih x hx
      refine ⟨a :: pre, post, by simp [hdec], hpx, ?_⟩
      intro y hy
      rcases List.mem_cons.mp hy with rfl | hy
      · exact hp
      · exact hpre y hy

theorem execute_agent_strategy_error (S : List (String × String)) :
    ∀ (responses : List String) (tries : Nat),
    (∀ r ∈ responses, find_strategy S r = none) →
    execute_agent_strategy S tries responses = Except.error "No matching strategy found" := by
  intro responses
  induction responses with
  | nil =>
    intro tries _
    cases tries with
    | zero => rfl
    | succ t => rfl
  | cons r rest ih =>
    intro tries hall
    cases tries with
    | zero => rfl
    | succ t =>
      simp only [execute_agent_strategy, hall r (by simp)]
      exact ih t (fun x hx => hall x (List.mem_cons_of_mem _ hx))

theorem execute_agent_strategy_ok (S : List (String × String)) :
    ∀ (responses : List String) (tries : Nat), responses.length ≤ tries →
    ∀ (i : Nat) (hi : i < responses.length),
    (∀ (j : Nat) (hj : j < i), find_strategy S (responses.get ⟨j, hj.trans hi⟩) = none) →
    ∀ k, find_strategy S (responses.get ⟨i, hi⟩) = some k →
    execute_agent_strategy S tries responses = Except.ok k := by
  intro responses
  induction responses with
  | nil => intro tries _ i hi; simp at hi
  | cons r rest ih =>
    intro tries hlen i hi hprior k hk
    cases tries with
    | zero => simp at hlen
    | succ t =>
      cases i with
      | zero =>
        simp only [List.get] at hk
        simp only [execute_agent_strategy, hk]
      | succ i' =>
        have h0 : find_strategy S r = none := hprior 0 (Nat.succ_pos i')
        simp only [execute_agent_strategy, h0]
        exact ih t (Nat.le_of_succ_le_succ hlen) i' (Nat.lt_of_succ_lt_succ hi)
          (fun j hj => hprior (j + 1) (Nat.succ_lt_succ hj)) k hk

/-- C2: with at most 10 raw responses, the bounded-retry extraction (a) fails
with the propagating "No matching strategy found" error when no response
contains any known display name; (b) succeeds from the first response that
contains one, returning the key found there; and (c) the key found in a
response is the first key in the strategy dict's ordering whose display name
occurs in it — every earlier key's name does not occur — not the key whose
name occurs earliest in the text. -/
theorem execute_agent_strategy_spec (S : List (String × String))
    (responses : List String) (hlen : responses.length ≤ 10) :
    ((∀ r ∈ responses, find_strategy S r = none) →
       execute_agent_strategy S 10 responses =
         Except.error "No matching strategy found")
    ∧ (∀ (i : Nat) (hi : i < responses.length),
         (∀ (j : Nat) (hj : j < i),
            find_strategy S (responses.get ⟨j, hj.trans hi⟩) = none) →
         ∀ k, find_strategy S (responses.get ⟨i, hi⟩) = some k →
         execute_agent_strategy S 10 responses = Except.ok k)
    ∧ (∀ (r k : String), find_strategy S r = some k →
         ∃ pre v post, S = pre ++ (k, v) :: post ∧
           name_in_response v r = true ∧
           ∀ kv ∈ pre, name_in_response kv.2 r = false) := by
  refine ⟨fun h => execute_agent_strategy_error S responses 10 h,
          fun i hi hp k hk => execute_agent_strategy_ok S responses 10 hlen i hi hp k hk,
          ?_⟩
  intro r k hk
  rw [find_strategy] at hk
  cases hfind : S.find? (fun kv => name_in_response kv.2 r) with
  | none => rw [hfind] at hk; simp at hk
  | some kv =>
    rw [hfind] at hk
    injection hk with hk
    obtain ⟨pre, post, hdec, hpkv, hpre⟩ := find?_first _ S kv hfind
    exact ⟨pre, kv.2, post, by rw [hdec, ← hk], hpkv, hpre⟩

/-- Witness for C2: with strategies ordered `strategy1 ↦ "Betray"`,
`strategy2 ↦ "Cooperate"`, the response `"i cooperate rather than betray"`
(reached after one useless response) yields `strategy1` — the first key in the
matrix's ordering whose name occurs — even though "cooperate" occurs first in
the text. -/
theorem execute_agent_strategy_spec_witness :
    execute_agent_strategy pdMatrix.strategies 10
      ["no decision here", "i cooperate rather than betray"] = Except.ok "strategy1" := by
  have h := (execute_agent_strategy_spec pdMatrix.strategies
      ["no decision here", "i cooperate rather than betray"] (by decide)).2.1
      1 (by decide)
      (fun j hj => by
        interval_cases j
        exact (by decide :
          find_strategy pdMatrix.strategies "no decision here" = none))
      "strategy1" (by decide)
  exact h

theorem stop_condition_run_step (dec : Nat → List (Option String)) (st : GState) :
    stop_condition_is_met (run_step dec st) =
      stop_match st.combinations st.stop_conditions (dec st.current_round) := by
  simp only [run_step, stop_condition_is_met, stop_match, List.getLast?_concat]

theorem run_from_ge (dec : Nat → List (Option String)) :
    ∀ (fuel : Nat) (st : GState) (x : Nat),
    x ∈ (run_from dec fuel st).2 → st.current_round ≤ x := by
  intro fuel
  induction fuel with
  | zero => intro st x hx; simp [run_from] at hx
  | succ fuel ih =>
    intro st x hx
    rw [run_from] at hx
    by_cases hc : st.current_round ≤ st.n_rounds ∧ stop_condition_is_met st = false
    · rw [if_pos hc] at hx
      rcases List.mem_cons.mp hx with rfl | hx
      · exact le_refl _
      · have hge := ih (run_step dec st) x hx
        simp only [run_step] at hge
        omega
    · rw [if_neg hc] at hx
      simp at hx

theorem run_from_stop (dec : Nat → List (Option String)) :
    ∀ (fuel : Nat) (st : GState) (r : Nat),
    stop_match st.combinations st.stop_conditions (dec r) = true →
    r ∈ (run_from dec fuel st).2 →
    ∀ r2, r < r2 → r2 ∉ (run_from dec fuel st).2 := by
  intro fuel
  induction fuel with
  | zero => intro st r _ hr; simp [run_from] at hr
  | succ fuel ih =>
    intro st r hmatch hr r2 hlt hr2
    rw [run_from] at hr hr2
    by_cases hc : st.current_round ≤ st.n_rounds ∧ stop_condition_is_met st = false
    · rw [if_pos hc] at hr hr2
      rcases List.mem_cons.mp hr with rfl | hrrest
      · -- the matched round is the current one: the next guard fails
        have hrest : (run_from dec fuel (run_step dec st)).2 = [] := by
          cases fuel with
          | zero => rfl
          | succ fuel2 =>
            rw [run_from, if_neg]
            intro hc2
            have hstop : stop_condition_is_met (run_step dec st) = true :=
              (stop_condition_run_step dec st).trans hmatch
            rw [hstop] at hc2
            cases hc2.2
        rw [hrest] at hr2
        rcases List.mem_cons.mp hr2 with rfl | h
        · omega
        · simp at h
      · -- the matched round lies deeper: recurse
        have hge := run_from_ge dec fuel (run_step dec st) r hrrest
        simp only [run_step] at hge
        rcases List.mem_cons.mp hr2 with rfl | hr2rest
        · omega
        · exact ih (run_step dec st) r hmatch hrrest r2 hlt hr2rest
    · rw [if_neg hc] at hr
      simp at hr

/-- C3: `stop_condition_is_met` is true exactly when `choices_made` is
non-empty and a stored combination's strategy sequence equals its last entry
and that combination's key is in the configured stop set — assuming the
data-model invariant of §4.1 that combination strategy sequences are pairwise
distinct ("the unique combination"); on an empty `choices_made` or with no
match it is false without error. Moreover `run` executes no round after a
round whose effective choice tuple satisfies the condition, even when
`current_round < n_rounds`. -/
theorem stop_condition_spec (st : GState) (dec : Nat → List (Option String))
    (hnd : (st.combinations.map Prod.snd).Nodup) :
    (stop_condition_is_met st = true ↔
       ∃ last k ss, st.choices_made.getLast? = some last ∧
         (k, ss) ∈ st.combinations ∧ ss.map some = last ∧
         k ∈ st.stop_conditions)
    ∧ (∀ r : Nat, stop_match st.combinations st.stop_conditions (dec r) = true →
         r ∈ (run dec st).2 → ∀ r2, r < r2 → r2 ∉ (run dec st).2) := by
  constructor
  · constructor
    · intro h
      rw [stop_condition_is_met] at h
      cases hlast : st.choices_made.getLast? with
      | none => rw [hlast] at h; cases h
      | some last =>
        rw [hlast] at h
        have h2 : (match find_combination_key st.combinations last with
          | none => false
          | some c => st.stop_conditions.contains c) = true := h
        clear h
        cases hfind : find_combination_key st.combinations last with
        | none => rw [hfind] at h2; cases h2
        | some k =>
          rw [hfind] at h2
          rw [find_combination_key] at hfind
          cases hf2 : st.combinations.find? (fun kv => kv.2.map some == last) with
          | none => rw [hf2] at hfind; cases hfind
          | some kv =>
            rw [hf2] at hfind
            injection hfind with hk
            have hmem := List.mem_of_find?_eq_some hf2
            have hp := List.find?_some hf2
            simp only [beq_iff_eq] at hp
            refine ⟨last, kv.1, kv.2, rfl, hmem, hp, ?_⟩
            have h3 : st.stop_conditions.contains kv.1 = true := by
              rw [hk]; exact h2
            simpa [List.contains] using h3
    · rintro ⟨last, k, ss, hlast, hmem, hss, hk⟩
      rw [stop_condition_is_met, hlast]
      show (match find_combination_key st.combinations last with
        | none => false
        | some c => st.stop_conditions.contains c) = true
      cases hf2 : st.combinations.find? (fun kv => kv.2.map some == last) with
      | none =>
        rw [List.find?_eq_none] at hf2
        have := hf2 (k, ss) hmem
        simp only [beq_iff_eq] at this
        exact absurd hss this
      | some kv =>
        have hp := List.find?_some hf2
        simp only [beq_iff_eq] at hp
        have hkvmem := List.mem_of_find?_eq_some hf2
        have hsnd : kv.2 = ss :=
          (List.map_injective_iff.mpr (Option.some_injective _)) (hp.trans hss.symm)
        have heq : kv = (k, ss) :=
          List.inj_on_of_nodup_map hnd hkvmem hmem (by simpa using hsnd)
        rw [show find_combination_key st.combinations last = some kv.1 from by
          rw [find_combination_key, hf2]; rfl]
        rw [heq]
        simpa [List.contains] using hk
  · exact fun r hm hr r2 hlt =>
      run_from_stop dec (st.n_rounds + 1 - st.current_round) st r hm hr r2 hlt

/-- Witness for C3 at a concrete stopping game: stop set `{combination1}`
(both agents betray), oracle always answering `(strategy1, strategy1)`,
5 rounds configured. -/
theorem stop_condition_spec_witness :
    ((pdMatrix.combinations.map Prod.snd).Nodup) ∧
    ((stop_condition_is_met
        { n_rounds := 5, current_round := 1, combinations := pdMatrix.combinations,
          stop_conditions := ["combination1"], choices_made := [] } = true ↔
       ∃ last k ss,
         ([] : List (List (Option String))).getLast? = some last ∧
         (k, ss) ∈ pdMatrix.combinations ∧ ss.map some = last ∧
         k ∈ ["combination1"])
    ∧ (∀ r : Nat, stop_match pdMatrix.combinations ["combination1"]
          ((fun _ => [some "strategy1", some "strategy1"]) r) = true →
        r ∈ (run (fun _ => [some "strategy1", some "strategy1"])
          { n_rounds := 5, current_round := 1, combinations := pdMatrix.combinations,
            stop_conditions := ["combination1"], choices_made := [] }).2 →
        ∀ r2, r < r2 →
        r2 ∉ (run (fun _ => [some "strategy1", some "strategy1"])
          { n_rounds := 5, current_round := 1, combinations := pdMatrix.combinations,
            stop_conditions := ["combination1"], choices_made := [] }).2)) :=
  ⟨by decide,
   stop_condition_spec
     { n_rounds := 5, current_round := 1, combinations := pdMatrix.combinations,
       stop_conditions := ["combination1"], choices_made := [] }
     (fun _ => [some "strategy1", some "strategy1"]) (by decide)⟩

theorem aget_map_self {β : Type} (f : String → β) :
    ∀ (order : List String) (tid : String), tid ∈ order →
    aget (order.map (fun t => (t, f t))) tid = some (f tid) := by
  intro order
  induction order with
  | nil => intro tid h; simp at h
  | cons o rest ih =>
    intro tid h
    by_cases ho : o = tid
    · subst ho; simp [aget]
    · rcases List.mem_cons.mp h with rfl | h
      · exact absurd rfl ho
      · simp only [List.map_cons, aget, if_neg ho]
        exact ih tid h

theorem ordered_team_strategies_map (F : String → Option String)
    (order : List String) :
    ∀ (sub : List String), (∀ t ∈ sub, t ∈ order) →
    ordered_team_strategies (order.map (fun t => (t, F t))) sub =
      Except.ok (sub.map F) := by
  intro sub
  induction sub with
  | nil => intro _; rfl
  | cons tid rest ih =>
    intro hsub
    have h1 : aget (order.map (fun t => (t, F t))) tid = some (F tid) :=
      aget_map_self F order tid (hsub tid (by simp))
    simp only [ordered_team_strategies, dictGet, h1,
      ih (fun t ht => hsub t (List.mem_cons_of_mem _ ht))]
    rfl

theorem find_combination_key_none_mem (combos : List (String × List String))
    (sl : List (Option String)) (h : none ∈ sl) :
    find_combination_key combos sl = none := by
  rw [find_combination_key]
  have hf : combos.find? (fun kv => kv.2.map some == sl) = none := by
    rw [List.find?_eq_none]
    intro kv _ hkv
    simp only [beq_iff_eq] at hkv
    rw [← hkv] at h
    rcases List.mem_map.mp h with ⟨x, _, hx⟩
    cases hx
  rw [hf]
  rfl

/-- C10: `_majority_vote` of an empty choice list is the sentinel `None`
rather than an error; a team none of whose members contributed a strategy
therefore gets `None` as its effective choice, `None` matches no stored
combination, and scoring the round fails with the combination-lookup error —
not at the aggregation step. -/
theorem empty_team_choices_spec (g : TeamGame) (md : MatrixData)
    (agents : List (String × Option String × List Int))
    (rs : List (String × String)) (t : String)
    (ht : t ∈ g.team_order)
    (hmem : ∀ n ∈ (aget g.teams t).getD [], aget rs n = none) :
    majority_vote [] = none
    ∧ aget (aggregate_team_decisions g rs) t = some none
    ∧ assign_team_scores md g.team_order agents (aggregate_team_decisions g rs) =
        Except.error "No payoff matrix combination matches strategies" := by
  have hvote : team_vote g rs t = none := by
    rw [team_vote, List.filterMap_eq_nil_iff.mpr hmem]
    rfl
  refine ⟨rfl, ?_, ?_⟩
  · rw [aggregate_team_decisions, aget_map_self _ _ _ ht, hvote]
  · have h1 := ordered_team_strategies_map (team_vote g rs) g.team_order g.team_order
      (fun _ h => h)
    have hnone : none ∈ g.team_order.map (team_vote g rs) :=
      hvote ▸ List.mem_map_of_mem (team_vote g rs) ht
    have h2 : find_combination_key md.combinations
        (g.team_order.map (team_vote g rs)) = none :=
      find_combination_key_none_mem md.combinations _ hnone
    simp only [assign_team_scores, aggregate_team_decisions, h1, h2]

/-- Witness for C10: team `A`'s only member `a1` contributed nothing (only
`b1` of team `B` answered), so aggregation yields `None` for `A` and scoring
fails with the combination-lookup error on the reference matrix. -/
theorem empty_team_choices_spec_witness :
    ("A" ∈ ["A", "B"] ∧ ∀ n ∈ (aget [("A", ["a1"]), ("B", ["b1"])] "A").getD [],
       aget [("b1", "Cooperate")] n = none)
    ∧ (majority_vote [] = none
       ∧ aget (aggregate_team_decisions ⟨[("A", ["a1"]), ("B", ["b1"])], ["A", "B"]⟩
           [("b1", "Cooperate")]) "A" = some none
       ∧ assign_team_scores pdMatrix ["A", "B"]
           [("a1", some "A", []), ("b1", some "B", [])]
           (aggregate_team_decisions ⟨[("A", ["a1"]), ("B", ["b1"])], ["A", "B"]⟩
             [("b1", "Cooperate")]) =
           Except.error "No payoff matrix combination matches strategies") :=
  ⟨⟨by decide, by decide⟩,
   empty_team_choices_spec ⟨[("A", ["a1"]), ("B", ["b1"])], ["A", "B"]⟩ pdMatrix
     [("a1", some "A", []), ("b1", some "B", [])] [("b1", "Cooperate")] "A"
     (by decide) (by decide)⟩

/-- A successful `format` resolved every field it scanned: each field name is
bound in the mapping. -/
theorem py_format_fields (pv : List (List Char × List Char)) :
    ∀ (t : List Char) (st : FmtState) (s : List Char),
    py_format_aux pv t st = Except.ok s →
    ∀ nm ∈ field_names_aux t st, (aget pv nm).isSome := by
  intro t
  induction t with
  | nil =>
    intro st s _ nm hnm
    cases st <;> simp [field_names_aux] at hnm
  | cons c rest ih =>
    intro st s hok nm hnm
    cases st with
    | lit =>
      by_cases h1 : c = '{'
      · rw [py_format_aux, if_pos h1] at hok
        rw [field_names_aux, if_pos h1] at hnm
        exact ih _ _ hok nm hnm
      · by_cases h2 : c = '}'
        · rw [py_format_aux, if_neg h1, if_pos h2] at hok
          rw [field_names_aux, if_neg h1, if_pos h2] at hnm
          exact ih _ _ hok nm hnm
        · rw [py_format_aux, if_neg h1, if_neg h2] at hok
          rw [field_names_aux, if_neg h1, if_neg h2] at hnm
          cases hrec : py_format_aux pv rest FmtState.lit with
          | error e => rw [hrec] at hok; simp [Except.map] at hok
          | ok s2 => exact ih _ _ hrec nm hnm
    | openB =>
      by_cases h1 : c = '{'
      · rw [py_format_aux, if_pos h1] at hok
        rw [field_names_aux, if_pos h1] at hnm
        cases hrec : py_format_aux pv rest FmtState.lit with
        | error e => rw [hrec] at hok; simp [Except.map] at hok
        | ok s2 => exact ih _ _ hrec nm hnm
      · by_cases h2 : c = '}'
        · rw [py_format_aux, if_neg h1, if_pos h2] at hok
          rw [field_names_aux, if_neg h1, if_pos h2] at hnm
          cases hget : aget pv ([] : List Char) with
          | none => rw [hget] at hok; cases hok
          | some v =>
            rw [hget] at hok
            rcases List.mem_cons.mp hnm with rfl | hnm2
            · simp [hget]
            · cases hrec : py_format_aux pv rest FmtState.lit with
              | error e => rw [hrec] at hok; simp [Except.map] at hok
              | ok s2 => exact ih _ _ hrec nm hnm2
        · rw [py_format_aux, if_neg h1, if_neg h2] at hok
          rw [field_names_aux, if_neg h1, if_neg h2] at hnm
          exact ih _ _ hok nm hnm
    | closeB =>
      by_cases h1 : c = '}'
      · rw [py_format_aux, if_pos h1] at hok
        rw [field_names_aux, if_pos h1] at hnm
        cases hrec : py_format_aux pv rest FmtState.lit with
        | error e => rw [hrec] at hok; simp [Except.map] at hok
        | ok s2 => exact ih _ _ hrec nm hnm
      · rw [py_format_aux, if_neg h1] at hok
        cases hok
    | field acc =>
      by_cases h1 : c = '}'
      · rw [py_format_aux, if_pos h1] at hok
        rw [field_names_aux, if_pos h1] at hnm
        cases hget : aget pv acc.reverse with
        | none => rw [hget] at hok; cases hok
        | some v =>
          rw [hget] at hok
          rcases List.mem_cons.mp hnm with rfl | hnm2
          · simp [hget]
          · cases hrec : py_format_aux pv rest FmtState.lit with
            | error e => rw [hrec] at hok; simp [Except.map] at hok
            | ok s2 => exact ih _ _ hrec nm hnm2
      · rw [py_format_aux, if_neg h1] at hok
        rw [field_names_aux, if_neg h1] at hnm
        exact ih _ _ hok nm hnm

/-- C7: when a render succeeds, every placeholder token that survived section
resolution was bound in the substitution mapping; contrapositively, an
unbound surviving placeholder makes `format` raise (`KeyError` — the template
error), never leaving the token in the output or dropping it silently. -/
theorem fill_template_placeholders_bound (cr : PromptCreator) (agent : PAgent)
    (opponents : List PAgent) (current_round : Nat) (history : List Char)
    (phase : String) (pv0 : List (List Char × List Char)) (s : List Char)
    (hpv : map_placeholders cr agent opponents current_round history = Except.ok pv0)
    (hok : (fill_template cr agent opponents current_round history phase).1 =
           Except.ok s) :
    ∀ nm ∈ field_names (resolved_template cr agent opponents pv0 phase).1,
      (aget (resolved_template cr agent opponents pv0 phase).2 nm).isSome := by
  simp only [fill_template, hpv] at hok
  exact py_format_fields _ _ _ _ hok

/-- C5 counterexample: the first render succeeds, but `fill_template` has
stripped the `intro` markers from `self.prompt_template` while `personality`
is only bound when the section is found; calling `fill_template` again on the
same creator — same agent, same history, same arguments — therefore fails
with a template `KeyError` instead of reproducing the first output. -/
theorem fill_template_stateful_rerender_fails :
    (fill_template cexCreator cexAgent [] 1 [] "choose").1 =
      Except.ok (cs "I am kind. Choose Betray or reply.")
    ∧ (fill_template ((fill_template cexCreator cexAgent [] 1 [] "choose").2)
         cexAgent [] 1 [] "choose").1 = Except.error "KeyError: personality" :=
  ⟨rfl, rfl⟩

/-- C5 (amended): the render result is a function of the creator's fields and
the call arguments alone — a second render from the unchanged template state
(a freshly constructed `PromptCreator`, as `GameRound.create_prompt` builds on
every call) succeeds with a byte-identical prompt whenever the first did.
Only re-using the mutated creator object can change the outcome. -/
theorem fill_template_fresh_deterministic (cr cr2 : PromptCreator) (agent : PAgent)
    (opponents : List PAgent) (current_round : Nat) (history : List Char)
    (phase : String)
    (hL : cr2.language = cr.language)
    (hT : cr2.prompt_template = cr.prompt_template)
    (hn : cr2.n_rounds = cr.n_rounds)
    (hk : cr2.n_rounds_known = cr.n_rounds_known)
    (hm : cr2.payoff_matrix = cr.payoff_matrix)
    (ht : cr2.teams = cr.teams) :
    (fill_template cr2 agent opponents current_round history phase).1 =
      (fill_template cr agent opponents current_round history phase).1 := by
  have hcr : cr2 = cr := by
    cases cr; cases cr2; simp_all
  rw [hcr]

/-- Witness for C5's amended theorem: rendering twice from the same fresh
creator state yields the identical successful prompt. -/
theorem fill_template_fresh_deterministic_witness :
    cexCreator.prompt_template = cexCreator.prompt_template ∧
    (fill_template cexCreator cexAgent [] 1 [] "choose").1 =
      (fill_template cexCreator cexAgent [] 1 [] "choose").1 :=
  ⟨rfl, fill_template_fresh_deterministic cexCreator cexCreator cexAgent [] 1 []
     "choose" rfl rfl rfl rfl rfl rfl⟩

/-- Witness for C7: a successful concrete render, on which every surviving
placeholder (`personality`, `strategy1`) is bound. -/
theorem fill_template_placeholders_bound_witness :
    map_placeholders cexCreator cexAgent [] 1 [] = Except.ok cexPv ∧
    (fill_template cexCreator cexAgent [] 1 [] "choose").1 =
      Except.ok (cs "I am kind. Choose Betray or reply.") ∧
    (∀ nm ∈ field_names (resolved_template cexCreator cexAgent [] cexPv "choose").1,
       (aget (resolved_template cexCreator cexAgent [] cexPv "choose").2 nm).isSome) :=
  ⟨rfl, rfl,
   fill_template_placeholders_bound cexCreator cexAgent [] 1 [] "choose" cexPv
     (cs "I am kind. Choose Betray or reply.") rfl rfl⟩
